import Mathlib

/-!
Verification development for the stemmy_team backend.

The repository glues a YOLO-based face/emotion detector, a bag-of-words
topic classifier and a remote chat API into one FastAPI service.  We embed
the repository's own selection / smoothing / ranking / prompt-compilation
logic as executable Lean definitions, translated from:

  * `Models/ALL_models/YoloFace recognition/FaceRecognitionYolo.py`
  * `topic_classifier.py`
  * `backend_api.py`

External collaborators (the YOLO network, the pickled sklearn model, the
remote chat API, the HTTP framework) are modelled as oracles/parameters;
everything the repository itself computes is embedded faithfully.
-/

namespace Stemmy

/-! ### Generic first-maximum selection

Both `torch.argmax` (used on the detection confidence tensor in
`predict_with_confidence`) and `collections.Counter.most_common(1)`
(used in `run_webcam`, via `heapq.nlargest`) return the FIRST element
attaining the maximum key: a later element replaces the current best
only when its key is strictly greater.  `best1 f b ks` scans `b :: ks`
left to right with exactly that rule. -/

def best1 {α β : Type} [LinearOrder β] (f : α → β) (b : α) : List α → α
  | [] => b
  | k :: ks => if f b < f k then best1 f k ks else best1 f b ks

/-! ### Detection result reducer (`FaceRecognitionYolo.py`)

A `Box` is one detection of an inference pass: we keep the confidence
(`result.boxes.conf[i]`) and the integer class id (`result.boxes.cls[i]`);
the bounding-box coordinates play no role in the reduction.  Confidences
are embedded as rationals. -/

structure Box where
  conf : ℚ
  cls : ℤ
deriving DecidableEq, Repr

/-- `self.model.names` is either a dict mapping class id to name or a
plain list of names (see `_class_name_from_id`, lines 163-169). -/
inductive Names where
  | dict : List (ℤ × String) → Names
  | arr : List String → Names
deriving DecidableEq, Repr

/-- Python dict lookup `d.get(k)` (keys of a dict are unique; we return
the first matching entry). -/
def dictGet : List (ℤ × String) → ℤ → Option String
  | [], _ => none
  | (k, v) :: rest, key => if k = key then some v else dictGet rest key

/-- The entry the id-to-label table holds for `class_id`, if any:
a dict entry for the dict form, an in-range element for the list form. -/
def lookupEntry (names : Names) (class_id : ℤ) : Option String :=
  match names with
  | .dict d => dictGet d class_id
  | .arr a =>
    if h : 0 ≤ class_id ∧ class_id.toNat < a.length then
      some (a.get ⟨class_id.toNat, h.2⟩)
    else none

/-- `FaceEmotionRecognizer._class_name_from_id` (lines 163-169):
`names.get(class_id, "neutral")` for a dict, a bounds-checked index for a
list, `"neutral"` otherwise. -/
def class_name_from_id (names : Names) (class_id : ℤ) : String :=
  match names with
  | .dict d => (dictGet d class_id).getD "neutral"
  | .arr a =>
    if h : 0 ≤ class_id ∧ class_id.toNat < a.length then
      a.get ⟨class_id.toNat, h.2⟩
    else "neutral"

/-- `FaceEmotionRecognizer.predict_with_confidence` (lines 113-148), after
the external model call: if no boxes were returned the result is
`("neutral", 0.0)`; otherwise `best_idx = result.boxes.conf.argmax()`
(first index of the maximal confidence) and the result is the label of
that box's class id together with its confidence. -/
def predict_with_confidence (names : Names) (boxes : List Box) : String × ℚ :=
  match boxes with
  | [] => ("neutral", 0)
  | b :: bs =>
    let best := best1 Box.conf b bs
    (class_name_from_id names best.cls, best.conf)

/-! ### Temporal label smoother (`FaceRecognitionYolo.py`, `run_webcam`)

`self._label_history = deque(maxlen=self.smoothing_window)` (line 52,
with `smoothing_window = max(1, int(smoothing_window))`); each processed
frame appends the observed label (line 245), the deque evicting its
oldest element when full; the smoothed label is
`Counter(self._label_history).most_common(1)[0][0]` (line 246). -/

/-- One `deque.append` on a deque with `maxlen = cap`. -/
def observe (cap : Nat) (buf : List String) (l : String) : List String :=
  if buf.length < cap then buf ++ [l] else buf.drop 1 ++ [l]

/-- The buffer contents after feeding a whole sequence of observed labels
into an initially empty capacity-`cap` history. -/
def runHistory (cap : Nat) (labels : List String) : List String :=
  labels.foldl (observe cap) []

/-- The keys of `Counter(buf)` in iteration order: a `Counter` is a dict,
so its keys appear in first-insertion order, i.e. ordered by the first
occurrence of each label in the buffer (oldest first). -/
def firstKeysAux : List String → List String → List String
  | _, [] => []
  | seen, l :: ls =>
    if l ∈ seen then firstKeysAux seen ls
    else l :: firstKeysAux (l :: seen) ls

def firstKeys (buf : List String) : List String :=
  firstKeysAux [] buf

/-- `Counter(buf).most_common(1)[0][0]`: `most_common` ranks the counter's
items with `heapq.nlargest(1, items, key=count)`, which keeps the first
item of maximal count in iteration order; the stored count of a key is
its multiplicity in `buf`.  `none` corresponds to the `IndexError` on an
empty buffer (never reached in the source: `most_common` runs right
after an append). -/
def mostCommon1 (buf : List String) : Option String :=
  match firstKeys buf with
  | [] => none
  | k :: ks => some (best1 (fun l => buf.count l) k ks)

/-! ### Topic top-k ranker (`topic_classifier.py`)

`top_k` receives the probability row `self._proba(X)[0]` (here the input
`p`, probabilities as rationals) and the ordered class-name list
`self.class_names`. -/

/-- `proba[i]` (indices used stay below `len(proba)`). -/
def pk (p : List ℚ) (i : Nat) : ℚ := p.getD i 0

/-- The order in which `np.argsort(-proba)` emits indices: descending
probability, equal probabilities kept in ascending index order. -/
abbrev argKey (p : List ℚ) (i j : Nat) : Prop :=
  pk p j < pk p i ∨ (pk p i = pk p j ∧ i ≤ j)

def argsortDesc (p : List ℚ) : List Nat :=
  List.insertionSort (argKey p) (List.range p.length)

/-- `self.class_names[i] if self.class_names else str(int(i))`. -/
def labelOf (names : List String) (i : Nat) : String :=
  if names.isEmpty then toString i else names.getD i ""

/-- The stop bound of Python's `xs[:k]` on a list of length `n`. -/
def pySliceStop (k : ℤ) (n : Nat) : Nat :=
  if 0 ≤ k then k.toNat else n - (-k).toNat

/-- `TopicClassifier.top_k` (lines 69-76): `indices = np.argsort(-proba)[:k]`
mapped to `(label, prob)` pairs. -/
def top_k (names : List String) (p : List ℚ) (k : ℤ) : List (String × ℚ) :=
  ((argsortDesc p).take (pySliceStop k p.length)).map
    (fun i => (labelOf names i, pk p i))

/-- The ranking performed by the `/api/classify_topic` endpoint
(`backend_api.py` line 298): `topic_clf.top_k(payload.text, max(1, payload.top_k))`. -/
def classify_top (names : List String) (p : List ℚ) (k : ℤ) : List (String × ℚ) :=
  top_k names p (max 1 k)

/-! ### Signal-to-prompt compiler (`backend_api.py`) -/

structure EmotionInfo where
  context : String
  suggestions : List String
deriving DecidableEq, Repr

def happyInfo : EmotionInfo :=
  ⟨"User appears happy and engaged. Great time for learning!",
   ["Ask about advanced topics", "Suggest challenging problems", "Encourage exploration"]⟩

def sadInfo : EmotionInfo :=
  ⟨"User seems sad or frustrated. Offer encouragement and support.",
   ["Break down complex topics into smaller steps", "Provide positive reinforcement",
    "Suggest taking a break if needed"]⟩

def angryInfo : EmotionInfo :=
  ⟨"User appears frustrated or angry. Approach with patience.",
   ["Acknowledge their frustration", "Offer alternative explanations",
    "Suggest simpler approaches"]⟩

def surprisedInfo : EmotionInfo :=
  ⟨"User seems surprised. They might have discovered something new!",
   ["Ask what surprised them", "Explain the concept in detail", "Connect to related topics"]⟩

def fearfulInfo : EmotionInfo :=
  ⟨"User appears anxious or fearful about the topic.",
   ["Provide reassurance", "Start with basics", "Offer step-by-step guidance"]⟩

def disgustedInfo : EmotionInfo :=
  ⟨"User seems displeased with the current topic or approach.",
   ["Ask what they\x27d prefer to learn", "Try a different teaching method",
    "Find more engaging examples"]⟩

def neutralInfo : EmotionInfo :=
  ⟨"User appears neutral and focused.",
   ["Continue with current approach", "Ask engaging questions", "Provide clear explanations"]⟩

/-- `EMOTION_CONTEXTS` (lines 62-91), in source order. -/
def EMOTION_CONTEXTS : List (String × EmotionInfo) :=
  [("happy", happyInfo), ("sad", sadInfo), ("angry", angryInfo),
   ("surprised", surprisedInfo), ("fearful", fearfulInfo),
   ("disgusted", disgustedInfo), ("neutral", neutralInfo)]

/-- Python 3 `round` (banker's rounding: half to even). -/
def pyRound (q : ℚ) : ℤ :=
  if q - ⌊q⌋ < 1/2 then ⌊q⌋
  else if (1 : ℚ)/2 < q - ⌊q⌋ then ⌊q⌋ + 1
  else if 2 ∣ ⌊q⌋ then ⌊q⌋ else ⌊q⌋ + 1

/-- Line 106: `f"{int(round(confidence * 100))}%" if confidence and
0 <= confidence <= 1 else "n/a"` — a Python float is truthy iff nonzero,
so confidence exactly `0.0` renders `"n/a"`. -/
def conf_pct (confidence : ℚ) : String :=
  if confidence ≠ 0 ∧ 0 ≤ confidence ∧ confidence ≤ 1 then
    toString (pyRound (confidence * 100)) ++ "%"
  else "n/a"

/-- `", ".join`. -/
def joinComma : List String → String
  | [] => ""
  | [s] => s
  | s :: rest => s ++ ", " ++ joinComma rest

def no_emotion_msg : String :=
  "No reliable emotion detected; assume a neutral, supportive tone. " ++
  "Keep explanations clear and encouraging."

/-- Python `str.strip()` whitespace set (ASCII). -/
def pyWs : List Char := [' ', '\t', '\n', '\r', '\x0b', '\x0c']

/-- Python `str.strip()`: drop leading and trailing whitespace. -/
def pyStrip (s : String) : String :=
  String.mk (((s.data.dropWhile (fun c => c ∈ pyWs)).reverse.dropWhile
    (fun c => c ∈ pyWs)).reverse)

/-- Python `str.lower()` (character-wise; exact on the ASCII labels this
service handles). -/
def pyLower (s : String) : String := String.mk (s.data.map Char.toLower)

/-- `emo_key = (emotion or "").strip().lower()` (line 102). -/
def pyKey (s : String) : String := pyLower (pyStrip s)

/-- `build_emotion_instruction` (lines 93-111).  `if not emotion` catches
both `None` and the empty string; `emo_key = emotion.strip().lower()`;
the lookup falls back to the `"neutral"` entry; at most the first three
suggestions are joined. -/
def build_emotion_instruction (emotion : Option String) (confidence : ℚ) : String :=
  match emotion with
  | none => no_emotion_msg
  | some e =>
    if e = "" then no_emotion_msg
    else
      "Current user emotion: " ++ pyKey e ++ " (confidence "
        ++ conf_pct confidence ++ "). Guidance: "
        ++ ((EMOTION_CONTEXTS.lookup (pyKey e)).getD neutralInfo).context
        ++ ". Adjust tone and strategy accordingly. Tips: "
        ++ joinComma (((EMOTION_CONTEXTS.lookup (pyKey e)).getD neutralInfo).suggestions.take 3)
        ++ "."

def no_topic_msg : String :=
  "No topic detected; infer topic from user message and keep explanations general."

/-- `build_topic_instruction` (lines 113-120).  `(confidence or 0.0)`
yields `confidence` itself for every float value (the falsy float is
`0.0`, replaced by the same `0.0`). -/
def build_topic_instruction (topic_label : Option String) (confidence : ℚ) : String :=
  match topic_label with
  | none => no_topic_msg
  | some t =>
    if t = "" then no_topic_msg
    else
      "Detected user topic intent: " ++ t ++ " (confidence "
        ++ toString (pyRound (confidence * 100)) ++ "%). "
        ++ "Tailor the explanation using this topic and provide relevant, grade-appropriate examples."

/-! ### Request orchestration (`backend_api.py` endpoints)

The module-level mutable slots `current_emotion`, `emotion_confidence`,
`current_topic`, `topic_confidence` form the shared state. -/

structure GState where
  current_emotion : Option String
  emotion_confidence : ℚ
  current_topic : Option String
  topic_confidence : ℚ
deriving DecidableEq, Repr

/-- One entry of `ChatRequest.history`: a dict that may lack the
`role`/`content` keys. -/
structure HistEntry where
  role : Option String
  content : Option String
deriving DecidableEq, Repr

structure Msg where
  role : String
  content : String
deriving DecidableEq, Repr

structure ChatPayload where
  message : String
  history : List HistEntry
  use_emotion : Bool
  emotion_override : Option String
  emotion_confidence_override : Option ℚ
  use_topic : Bool
  topic_override : Option String
  topic_confidence_override : Option ℚ
deriving DecidableEq, Repr

def system_persona : String := "You are a helpful STEM tutor called STEMMY."

def allowedRoles : List String := ["user", "assistant", "system"]

/-- History-entry normalization (lines 360-365): a missing role defaults
to `"user"`, a role outside the allowed set is replaced by `"user"`, a
missing content becomes `""`. -/
def normalizeHist (m : HistEntry) : Msg :=
  ⟨if m.role.getD "user" ∈ allowedRoles then m.role.getD "user" else "user",
   m.content.getD ""⟩

/-- Emotion signal resolution (lines 320-326): the override wins when
present; `(emotion_confidence or 0.0)` equals `emotion_confidence` for
every value. -/
def emotionSignal (st : GState) (p : ChatPayload) : Option String × ℚ :=
  (match p.emotion_override with
   | some e => some e
   | none => st.current_emotion,
   match p.emotion_confidence_override with
   | some c => c
   | none => st.emotion_confidence)

/-- Topic signal resolution (lines 334-349).  `clf` is `none` when the
classifier is unavailable; applying it models `topic_clf.predict`,
`.error` meaning the call raised (then the shared state value is used). -/
def topicSignal (st : GState) (clf : Option (String → Except String (String × ℚ)))
    (p : ChatPayload) : Option String × ℚ :=
  match p.topic_override with
  | some t => (some t, p.topic_confidence_override.getD 0)
  | none =>
    match clf with
    | some f =>
      match f p.message with
      | .ok (l, c) => (some l, c)
      | .error _ => (st.current_topic, st.topic_confidence)
    | none => (st.current_topic, st.topic_confidence)

def emotionMsg (st : GState) (p : ChatPayload) : Msg :=
  ⟨"system", "Adapt your tone and teaching strategy based on the following emotion signal. "
    ++ build_emotion_instruction (emotionSignal st p).1 (emotionSignal st p).2⟩

def topicMsg (st : GState) (clf : Option (String → Except String (String × ℚ)))
    (p : ChatPayload) : Msg :=
  ⟨"system", build_topic_instruction (topicSignal st clf p).1 (topicSignal st clf p).2⟩

/-- Message assembly of `/api/chat_openai` (lines 315-367): the persona
system message, then (when requested) the emotion system message, then
(when requested) the topic system message, then the normalized history,
then the current user message. -/
def buildMessages (st : GState) (clf : Option (String → Except String (String × ℚ)))
    (p : ChatPayload) : List Msg :=
  let sys0 := [Msg.mk "system" system_persona]
  let sys1 := if p.use_emotion then sys0 ++ [emotionMsg st p] else sys0
  let sys2 := if p.use_topic then sys1 ++ [topicMsg st clf p] else sys1
  sys2 ++ p.history.map normalizeHist ++ [Msg.mk "user" p.message]

/-- An `HTTPException`: status code and detail. -/
structure HErr where
  code : Nat
  detail : String
deriving DecidableEq, Repr

def not_configured_err : HErr :=
  ⟨500, "OPENAI_API_KEY is not set. Put it in a .env file or environment."⟩

/-- `/api/chat_openai` (lines 306-378).  Its first statement is
`client = get_openai_client()` (lines 124-141), which raises the
not-configured error when the API key is absent (or empty, Python
truthiness) — before any message assembly and before the remote call.
`net` is an oracle for `client.chat.completions.create`. -/
def chat_openai (apiKey : Option String) (st : GState)
    (clf : Option (String → Except String (String × ℚ)))
    (net : List Msg → Except String String) (p : ChatPayload) : Except HErr String :=
  match apiKey with
  | none => .error not_configured_err
  | some key =>
    if key = "" then .error not_configured_err
    else
      match net (buildMessages st clf p) with
      | .ok text => .ok text
      | .error e => .error ⟨500, "OpenAI error: " ++ e⟩

/-- What `/recognize_emotion` consumes from the recognizer: the configured
threshold and the outcome of `predict_with_confidence(image_data)` on the
posted image (`.error` when decoding or inference raises). -/
structure Recognizer where
  confidence_threshold : ℚ
  predictResult : Except String (String × ℚ)

structure RecognizeResponse where
  status : String
  emotion : String
  confidence : ℚ
  detections : Nat
  message : String
deriving DecidableEq, Repr

/-- `f"{q:.2f}"` for a nonnegative rational. -/
def fmt2 (q : ℚ) : String :=
  toString (pyRound (q * 100) / 100) ++ "." ++
    (if pyRound (q * 100) % 100 < 10 then "0" else "") ++
    toString (pyRound (q * 100) % 100)

/-- `/recognize_emotion` (lines 215-253): 503 when the recognizer is
unavailable, 500 when processing raises, otherwise `detections` is 1
exactly when the returned confidence strictly exceeds the recognizer's
`confidence_threshold` — independent of the emotion label. -/
def recognize_emotion (rec : Option Recognizer) : Except HErr RecognizeResponse :=
  match rec with
  | none => .error ⟨503, "Emotion recognition model not available"⟩
  | some r =>
    match r.predictResult with
    | .error e => .error ⟨500, "Emotion recognition failed: " ++ e⟩
    | .ok (emotion, confidence) =>
      .ok ⟨"success", emotion, confidence,
        if r.confidence_threshold < confidence then 1 else 0,
        "Detected emotion: " ++ emotion ++ " with " ++ fmt2 confidence ++ " confidence"⟩

structure TopicResponse where
  label : Option String
  confidence : ℚ
  top : List (String × ℚ)
  model_loaded : Bool
deriving DecidableEq, Repr

/-- The externally computed behavior of a loaded `TopicClassifier` on a
given text: `predict` and `top_k`, each of which may raise. -/
structure TopicClf where
  predictR : String → Except String (String × ℚ)
  topkR : String → ℤ → Except String (List (String × ℚ))

/-- `/api/classify_topic` (lines 291-303), returning the response (or
HTTP error) together with the shared topic state after the call.  The
state assignments stand after both `predict` and `top_k` calls in the
`try` block, so an exception in either leaves the state untouched. -/
def classify_topic (clf : Option TopicClf) (st : GState) (text : String) (k : ℤ) :
    Except HErr TopicResponse × GState :=
  match clf with
  | none => (.ok ⟨none, 0, [], false⟩, st)
  | some c =>
    match c.predictR text with
    | .error e => (.error ⟨500, "Topic classify error: " ++ e⟩, st)
    | .ok (label, conf) =>
      match c.topkR text (max 1 k) with
      | .error e => (.error ⟨500, "Topic classify error: " ++ e⟩, st)
      | .ok top =>
        (.ok ⟨some label, conf, top, true⟩,
         { st with current_topic := some label, topic_confidence := conf })

/-! Concrete fixtures used to instantiate the theorems below. -/

/-- A recognizer whose best detection is `"happy"` at confidence 0.2,
below its threshold 0.3. -/
def recHappyLow : Recognizer := ⟨3/10, .ok ("happy", 1/5)⟩

/-- A classifier whose `predict` and `top_k` both succeed. -/
def clfFix : TopicClf :=
  ⟨fun _ => .ok ("math", 9/10), fun _ _ => .ok [("math", 9/10)]⟩

/-- An empty shared state. -/
def st0 : GState := ⟨none, 0, none, 0⟩

end Stemmy

namespace Stemmy

/-! ### Helper lemmas: first-maximum selection -/

/-- `best1 f b ks` splits `b :: ks` as `l1 ++ best :: l2` where everything
before the selected element has strictly smaller key and everything after
has key at most the selected one: it is the first maximum. -/
theorem best1_split {α β : Type} [LinearOrder β] (f : α → β) :
    ∀ (ks : List α) (b : α), ∃ l1 l2,
      b :: ks = l1 ++ best1 f b ks :: l2 ∧
      (∀ x ∈ l1, f x < f (best1 f b ks)) ∧
      (∀ x ∈ l2, f x ≤ f (best1 f b ks)) := by
  intro ks
  induction ks with
  | nil =>
    intro b
    exact ⟨[], [], rfl, by simp, by simp⟩
  | cons k ks ih =>
    intro b
    by_cases h : f b < f k
    · obtain ⟨l1, l2, heq, h1, h2⟩ := ih k
      have hbest : best1 f b (k :: ks) = best1 f k ks := by
        simp [best1, h]
      have hk_le : f k ≤ f (best1 f k ks) := by
        rcases l1 with _ | ⟨a, l1'⟩
        · simp only [List.nil_append, List.cons.injEq] at heq
          exact le_of_eq (congrArg f heq.1)
        · rw [List.cons_append, List.cons.injEq] at heq
          obtain ⟨rfl, -⟩ := heq
          exact le_of_lt (h1 k (List.mem_cons_self _ _))
      refine ⟨b :: l1, l2, ?_, ?_, ?_⟩
      · rw [hbest, List.cons_append, ← heq]
      · intro x hx
        rw [hbest]
        rcases List.mem_cons.1 hx with rfl | hx'
        · exact lt_of_lt_of_le h hk_le
        · exact h1 x hx'
      · intro x hx
        rw [hbest]
        exact h2 x hx
    · obtain ⟨l1, l2, heq, h1, h2⟩ := ih b
      have hbest : best1 f b (k :: ks) = best1 f b ks := by
        simp [best1, h]
      rcases l1 with _ | ⟨a, l1'⟩
      · -- the selected element is `b` itself; `k` joins the tail side
        simp only [List.nil_append, List.cons.injEq] at heq
        obtain ⟨hb, hks⟩ := heq
        refine ⟨[], k :: l2, ?_, by simp, ?_⟩
        · rw [List.nil_append, hbest, ← hb, hks]
        · intro x hx
          rw [hbest]
          rcases List.mem_cons.1 hx with rfl | hx'
          · exact le_of_le_of_eq (not_lt.1 h) (congrArg f hb)
          · exact h2 x hx'
      · rw [List.cons_append, List.cons.injEq] at heq
        obtain ⟨rfl, hks⟩ := heq
        refine ⟨b :: k :: l1', l2, ?_, ?_, ?_⟩
        · rw [hbest, List.cons_append, List.cons_append, ← hks]
        · intro x hx
          rw [hbest]
          rcases List.mem_cons.1 hx with rfl | hx'
          · exact h1 _ (List.mem_cons_self _ _)
          rcases List.mem_cons.1 hx' with rfl | hx''
          · exact lt_of_le_of_lt (not_lt.1 h) (h1 _ (List.mem_cons_self _ _))
          · exact h1 x (List.mem_cons_of_mem _ hx'')
        · intro x hx
          rw [hbest]
          exact h2 x hx

/-! ### Helper lemmas: Counter key order and the history buffer -/

theorem mem_firstKeysAux : ∀ (buf seen : List String) (x : String),
    x ∈ firstKeysAux seen buf ↔ (x ∈ buf ∧ x ∉ seen) := by
  intro buf
  induction buf with
  | nil =>
    intro seen x
    simp [firstKeysAux]
  | cons l ls ih =>
    intro seen x
    by_cases h : l ∈ seen
    · rw [firstKeysAux, if_pos h, ih]
      constructor
      · rintro ⟨hx, hs⟩
        exact ⟨List.mem_cons_of_mem _ hx, hs⟩
      · rintro ⟨hx, hs⟩
        rcases List.mem_cons.1 hx with rfl | hx'
        · exact absurd h hs
        · exact ⟨hx', hs⟩
    · rw [firstKeysAux, if_neg h]
      constructor
      · intro hx
        rcases List.mem_cons.1 hx with rfl | hx'
        · exact ⟨List.mem_cons_self _ _, h⟩
        · obtain ⟨h1, h2⟩ := (ih (l :: seen) x).1 hx'
          exact ⟨List.mem_cons_of_mem _ h1,
            fun hc => h2 (List.mem_cons_of_mem _ hc)⟩
      · rintro ⟨hx, hs⟩
        by_cases hxl : x = l
        · exact hxl ▸ List.mem_cons_self _ _
        · rcases List.mem_cons.1 hx with rfl | hx'
          · exact absurd rfl hxl
          · exact List.mem_cons_of_mem _ ((ih (l :: seen) x).2
              ⟨hx', fun hc => (List.mem_cons.1 hc).elim hxl hs⟩)

/-- Keys appear in `firstKeys` in first-occurrence order: an element left
of another in the key list first occurs no later in the buffer. -/
theorem firstKeysAux_indexOf : ∀ (buf seen l1 : List String) (m : String) (l2 : List String),
    firstKeysAux seen buf = l1 ++ m :: l2 →
    ∀ l ∈ l2, buf.indexOf m ≤ buf.indexOf l := by
  intro buf
  induction buf with
  | nil =>
    intro seen l1 m l2 h
    rw [firstKeysAux] at h
    exact absurd h.symm (List.append_ne_nil_of_right_ne_nil l1 (List.cons_ne_nil m l2))
  | cons b bs ih =>
    intro seen l1 m l2 h l hl
    by_cases hb : b ∈ seen
    · rw [firstKeysAux, if_pos hb] at h
      have hm : m ∈ firstKeysAux seen bs := by
        rw [h]; exact List.mem_append_right _ (List.mem_cons_self _ _)
      have hlmem : l ∈ firstKeysAux seen bs := by
        rw [h]; exact List.mem_append_right _ (List.mem_cons_of_mem _ hl)
      have hmne : b ≠ m :=
        fun hc => ((mem_firstKeysAux bs seen m).1 hm).2 (hc ▸ hb)
      have hlne : b ≠ l :=
        fun hc => ((mem_firstKeysAux bs seen l).1 hlmem).2 (hc ▸ hb)
      rw [List.indexOf_cons_ne _ hmne, List.indexOf_cons_ne _ hlne]
      exact Nat.succ_le_succ (ih seen l1 m l2 h l hl)
    · rw [firstKeysAux, if_neg hb] at h
      cases l1 with
      | nil =>
        simp only [List.nil_append, List.cons.injEq] at h
        obtain ⟨rfl, -⟩ := h
        rw [List.indexOf_cons_self]
        exact Nat.zero_le _
      | cons a l1' =>
        rw [List.cons_append, List.cons.injEq] at h
        obtain ⟨rfl, h2⟩ := h
        have hm : m ∈ firstKeysAux (b :: seen) bs := by
          rw [h2]; exact List.mem_append_right _ (List.mem_cons_self _ _)
        have hlmem : l ∈ firstKeysAux (b :: seen) bs := by
          rw [h2]; exact List.mem_append_right _ (List.mem_cons_of_mem _ hl)
        have hmne : b ≠ m :=
          fun hc => ((mem_firstKeysAux bs (b :: seen) m).1 hm).2
            (hc ▸ List.mem_cons_self _ _)
        have hlne : b ≠ l :=
          fun hc => ((mem_firstKeysAux bs (b :: seen) l).1 hlmem).2
            (hc ▸ List.mem_cons_self _ _)
        rw [List.indexOf_cons_ne _ hmne, List.indexOf_cons_ne _ hlne]
        exact Nat.succ_le_succ (ih (b :: seen) l1' m l2 h2 l hl)

theorem observe_ne_nil (cap : Nat) (buf : List String) (l : String) :
    observe cap buf l ≠ [] := by
  intro h
  unfold observe at h
  split at h <;> simpa using congrArg List.length h

theorem foldl_observe_ne_nil (cap : Nat) :
    ∀ (ls buf : List String), buf ≠ [] → ls.foldl (observe cap) buf ≠ [] := by
  intro ls
  induction ls with
  | nil =>
    intro buf h
    simpa using h
  | cons l ls ih =>
    intro buf _
    rw [List.foldl_cons]
    exact ih (observe cap buf l) (observe_ne_nil cap buf l)

theorem runHistory_ne_nil (cap : Nat) (labels : List String) (h : labels ≠ []) :
    runHistory cap labels ≠ [] := by
  cases labels with
  | nil => exact absurd rfl h
  | cons l ls =>
    unfold runHistory
    rw [List.foldl_cons]
    exact foldl_observe_ne_nil cap ls (observe cap [] l) (observe_ne_nil cap [] l)

/-- Full characterization of `Counter(buf).most_common(1)[0][0]`: on a
nonempty buffer it returns a member of maximal multiplicity, and among
the labels tied at that count the one whose first occurrence in the
buffer is earliest. -/
theorem mostCommon1_spec (buf : List String) (hbuf : buf ≠ []) :
    ∃ m, mostCommon1 buf = some m ∧ m ∈ buf ∧
      (∀ l ∈ buf, buf.count l ≤ buf.count m) ∧
      (∀ l ∈ buf, buf.count l = buf.count m → buf.indexOf m ≤ buf.indexOf l) := by
  have hkeys : firstKeys buf ≠ [] := by
    cases buf with
    | nil => exact absurd rfl hbuf
    | cons b bs =>
      exact List.ne_nil_of_mem ((mem_firstKeysAux (b :: bs) [] b).2
        ⟨List.mem_cons_self _ _, List.not_mem_nil _⟩)
  cases hk : firstKeys buf with
  | nil => exact absurd hk hkeys
  | cons k ks =>
    obtain ⟨L1, L2, heq, h1, h2⟩ := best1_split (fun l => buf.count l) ks k
    refine ⟨best1 (fun l => buf.count l) k ks, ?_, ?_, ?_, ?_⟩
    · unfold mostCommon1
      rw [hk]
    · have hmem : best1 (fun l => buf.count l) k ks ∈ firstKeys buf := by
        rw [hk, heq]
        exact List.mem_append_right _ (List.mem_cons_self _ _)
      exact ((mem_firstKeysAux buf [] _).1 hmem).1
    · intro l hl
      have hlk : l ∈ firstKeys buf :=
        (mem_firstKeysAux buf [] l).2 ⟨hl, List.not_mem_nil l⟩
      rw [hk, heq] at hlk
      rcases List.mem_append.1 hlk with hL1 | hrest
      · exact le_of_lt (h1 l hL1)
      rcases List.mem_cons.1 hrest with heqm | hL2
      · exact le_of_eq (congrArg (fun x => List.count x buf) heqm)
      · exact h2 l hL2
    · intro l hl hcnt
      have hlk : l ∈ firstKeys buf :=
        (mem_firstKeysAux buf [] l).2 ⟨hl, List.not_mem_nil l⟩
      rw [hk, heq] at hlk
      rcases List.mem_append.1 hlk with hL1 | hrest
      · exact absurd hcnt (ne_of_lt (h1 l hL1))
      rcases List.mem_cons.1 hrest with heqm | hL2
      · exact le_of_eq (congrArg (fun x => List.indexOf x buf) heqm.symm)
      · have hsplit : firstKeysAux [] buf = L1 ++ best1 (fun l => buf.count l) k ks :: L2 := by
          have : firstKeys buf = L1 ++ best1 (fun l => buf.count l) k ks :: L2 := by
            rw [hk, heq]
          exact this
        exact firstKeysAux_indexOf buf [] L1 _ L2 hsplit l hL2

/-! ### Helper lemmas: argsort -/

instance (p : List ℚ) : IsTotal Nat (argKey p) := ⟨by
  intro a b
  rcases lt_trichotomy (pk p a) (pk p b) with h | h | h
  · exact Or.inr (Or.inl h)
  · rcases le_total a b with hab | hab
    · exact Or.inl (Or.inr ⟨h, hab⟩)
    · exact Or.inr (Or.inr ⟨h.symm, hab⟩)
  · exact Or.inl (Or.inl h)⟩

instance (p : List ℚ) : IsTrans Nat (argKey p) := ⟨by
  intro a b c hab hbc
  rcases hab with hab | ⟨hab, hab2⟩
  · rcases hbc with hbc | ⟨hbc, -⟩
    · exact Or.inl (lt_trans hbc hab)
    · exact Or.inl (hbc ▸ hab)
  · rcases hbc with hbc | ⟨hbc, hbc2⟩
    · exact Or.inl (lt_of_lt_of_eq hbc hab.symm)
    · exact Or.inr ⟨hab.trans hbc, le_trans hab2 hbc2⟩⟩

/-- The emitted index order is strictly descending by probability with
equal probabilities in strictly increasing index order. -/
theorem argsortDesc_pairwise (p : List ℚ) :
    List.Pairwise (fun i j => pk p j < pk p i ∨ (pk p i = pk p j ∧ i < j))
      (argsortDesc p) := by
  have hs : List.Pairwise (argKey p) (argsortDesc p) :=
    List.sorted_insertionSort (argKey p) (List.range p.length)
  have hn : List.Pairwise (fun a b : Nat => a ≠ b) (argsortDesc p) :=
    (List.Perm.nodup_iff (List.perm_insertionSort (argKey p) (List.range p.length))).mpr
      (List.nodup_range p.length)
  refine (hs.and hn).imp ?_
  rintro a b ⟨hk | ⟨heq, hle⟩, hne⟩
  · exact Or.inl hk
  · exact Or.inr ⟨heq, lt_of_le_of_ne hle hne⟩

/-! ### Claim theorems -/

/-- C1: for every list of detections of one inference pass,
`predict_with_confidence` returns the label and confidence of the
detection with maximal confidence; on an exact tie the first detection
in input order is selected; an empty list yields `("neutral", 0.0)`; a
class id without an entry in the id-to-label table maps to `"neutral"`. -/
theorem C1_predict_with_confidence (names : Names) (boxes : List Box) :
    (boxes = [] → predict_with_confidence names boxes = ("neutral", 0))
    ∧ (∀ b bs, boxes = b :: bs → ∃ best l1 l2,
        boxes = l1 ++ best :: l2 ∧
        predict_with_confidence names boxes =
          (class_name_from_id names best.cls, best.conf) ∧
        (∀ x ∈ l1, x.conf < best.conf) ∧
        (∀ x ∈ boxes, x.conf ≤ best.conf))
    ∧ (∀ cid : ℤ, lookupEntry names cid = none →
        class_name_from_id names cid = "neutral") := by
  refine ⟨?_, ?_, ?_⟩
  · rintro rfl
    rfl
  · rintro b bs rfl
    obtain ⟨l1, l2, heq, h1, h2⟩ := best1_split Box.conf bs b
    refine ⟨best1 Box.conf b bs, l1, l2, heq, rfl, h1, ?_⟩
    intro x hx
    rw [heq] at hx
    rcases List.mem_append.1 hx with hx1 | hx2
    · exact le_of_lt (h1 x hx1)
    rcases List.mem_cons.1 hx2 with rfl | hx3
    · exact le_refl _
    · exact h2 x hx3
  · intro cid hid
    cases names with
    | dict d =>
      simp only [lookupEntry] at hid
      simp only [class_name_from_id, hid, Option.getD_none]
    | arr a =>
      simp only [lookupEntry] at hid
      by_cases h : 0 ≤ cid ∧ cid.toNat < a.length
      · rw [dif_pos h] at hid
        exact absurd hid (by simp)
      · simp only [class_name_from_id, dif_neg h]

theorem C1_witness :
    predict_with_confidence (Names.dict [(0, "happy")]) [] = ("neutral", 0) ∧
    class_name_from_id (Names.dict [(0, "happy")]) 7 = "neutral" ∧
    (∃ best l1 l2,
      ([⟨1/2, 0⟩, ⟨3/4, 1⟩] : List Box) = l1 ++ best :: l2 ∧
      predict_with_confidence (Names.dict [(0, "happy")]) [⟨1/2, 0⟩, ⟨3/4, 1⟩] =
        (class_name_from_id (Names.dict [(0, "happy")]) best.cls, best.conf) ∧
      (∀ x ∈ l1, x.conf < best.conf) ∧
      (∀ x ∈ ([⟨1/2, 0⟩, ⟨3/4, 1⟩] : List Box), x.conf ≤ best.conf)) :=
  ⟨(C1_predict_with_confidence (Names.dict [(0, "happy")]) []).1 rfl,
   (C1_predict_with_confidence (Names.dict [(0, "happy")]) []).2.2 7 rfl,
   (C1_predict_with_confidence (Names.dict [(0, "happy")]) [⟨1/2, 0⟩, ⟨3/4, 1⟩]).2.1
     ⟨1/2, 0⟩ [⟨3/4, 1⟩] rfl⟩

/-- C2: after any sequence of observed labels is appended to the
capacity-N history buffer (oldest evicted first), the smoothed label is
a buffer member of maximal occurrence count, and among equal-count
labels the one whose first occurrence in buffer order is earliest; with
capacity 3, `["happy","sad","happy"]` smooths to `"happy"` and
`["happy","sad"]` smooths to `"happy"`. -/
theorem C2_smoothed_label (cap : Nat) (labels : List String) (hne : labels ≠ []) :
    (∃ m, mostCommon1 (runHistory cap labels) = some m ∧
      m ∈ runHistory cap labels ∧
      (∀ l ∈ runHistory cap labels,
        (runHistory cap labels).count l ≤ (runHistory cap labels).count m) ∧
      (∀ l ∈ runHistory cap labels,
        (runHistory cap labels).count l = (runHistory cap labels).count m →
        (runHistory cap labels).indexOf m ≤ (runHistory cap labels).indexOf l))
    ∧ mostCommon1 (runHistory 3 ["happy", "sad", "happy"]) = some "happy"
    ∧ mostCommon1 (runHistory 3 ["happy", "sad"]) = some "happy" :=
  ⟨mostCommon1_spec _ (runHistory_ne_nil cap labels hne), by decide, by decide⟩

theorem C2_witness :
    mostCommon1 (runHistory 3 ["happy", "sad", "happy"]) = some "happy" :=
  (C2_smoothed_label 3 ["happy", "sad", "happy"] (by decide)).2.1

/-- C3: the top-k ranking of the `/api/classify_topic` path returns the
k highest-probability (label, probability) pairs — every class index it
emits is a valid class index, and every valid class index it does NOT
emit has probability below (or, on an exact tie, class index above)
every emitted index — sorted descending by probability with exact ties
in ascending class-index order, where k is clamped below by 1 (the
endpoint's `max(1, payload.top_k)`) and above by the number of classes
(the `[:k]` slice); with probabilities [0.1, 0.6, 0.3] and k = 2 the
result is the pairs of class indices 1 and 2, in that order. -/
theorem C3_top_k (names : List String) (p : List ℚ) (k : ℤ) :
    (classify_top names p k).length = min (max 1 k).toNat p.length
    ∧ List.Pairwise (fun a b => b.2 ≤ a.2) (classify_top names p k)
    ∧ (∃ idxs : List Nat,
        classify_top names p k = idxs.map (fun i => (labelOf names i, pk p i)) ∧
        List.Pairwise (fun i j => pk p j < pk p i ∨ (pk p i = pk p j ∧ i < j)) idxs ∧
        (∀ i ∈ idxs, i < p.length) ∧
        (∀ j, j < p.length → j ∉ idxs → ∀ i ∈ idxs,
          pk p j < pk p i ∨ (pk p i = pk p j ∧ i < j)))
    ∧ classify_top ["topic0", "topic1", "topic2"] [1/10, 6/10, 3/10] 2
        = [("topic1", 6/10), ("topic2", 3/10)] := by
  have hstop : pySliceStop (max 1 k) p.length = (max 1 k).toNat := by
    unfold pySliceStop
    rw [if_pos (le_trans zero_le_one (le_max_left 1 k))]
  have hlen : (argsortDesc p).length = p.length := by
    unfold argsortDesc
    rw [(List.perm_insertionSort (argKey p) (List.range p.length)).length_eq,
      List.length_range]
  have hmem : ∀ x : Nat, x ∈ argsortDesc p ↔ x < p.length := by
    intro x
    unfold argsortDesc
    rw [List.mem_insertionSort, List.mem_range]
  have htake : List.Pairwise (fun i j => pk p j < pk p i ∨ (pk p i = pk p j ∧ i < j))
      ((argsortDesc p).take (pySliceStop (max 1 k) p.length)) :=
    List.Pairwise.sublist (List.take_sublist _ _) (argsortDesc_pairwise p)
  refine ⟨?_, ?_, ?_, ?_⟩
  · unfold classify_top top_k
    rw [List.length_map, List.length_take, hstop, hlen]
  · unfold classify_top top_k
    refine List.pairwise_map.2 (htake.imp ?_)
    intro i j h
    rcases h with h | ⟨h, -⟩
    · exact le_of_lt h
    · exact le_of_eq h.symm
  · refine ⟨(argsortDesc p).take (pySliceStop (max 1 k) p.length), rfl, htake, ?_, ?_⟩
    · intro i hi
      exact (hmem i).1 ((List.take_sublist _ _).subset hi)
    · intro j hj hjn i hi
      have hjdrop : j ∈ (argsortDesc p).drop (pySliceStop (max 1 k) p.length) := by
        have hjapp : j ∈ (argsortDesc p).take (pySliceStop (max 1 k) p.length)
            ++ (argsortDesc p).drop (pySliceStop (max 1 k) p.length) := by
          rw [List.take_append_drop]
          exact (hmem j).2 hj
        rcases List.mem_append.1 hjapp with h | h
        · exact absurd h hjn
        · exact h
      have hp2 := argsortDesc_pairwise p
      rw [← List.take_append_drop (pySliceStop (max 1 k) p.length) (argsortDesc p)] at hp2
      exact (List.pairwise_append.1 hp2).2.2 i hi j hjdrop
  · norm_num [classify_top, top_k, argsortDesc, pySliceStop, pk, labelOf,
      List.insertionSort, List.orderedInsert, List.range_succ, argKey,
      List.getD_cons_zero, List.getD_cons_succ]
    rfl

/-- Unfolding of `build_emotion_instruction` on a present (nonempty)
label. -/
theorem build_emotion_instruction_eq (e : String) (conf : ℚ) (he : e ≠ "") :
    build_emotion_instruction (some e) conf
      = "Current user emotion: " ++ pyKey e ++ " (confidence "
        ++ conf_pct conf ++ "). Guidance: "
        ++ ((EMOTION_CONTEXTS.lookup (pyKey e)).getD neutralInfo).context
        ++ ". Adjust tone and strategy accordingly. Tips: "
        ++ joinComma (((EMOTION_CONTEXTS.lookup (pyKey e)).getD neutralInfo).suggestions.take 3)
        ++ "." := by
  simp only [build_emotion_instruction]
  rw [if_neg he]

/-- C4 as written fails on the code: confidence exactly 0 lies within
[0,1] yet is rendered `"n/a"` rather than `"0%"` (the Python condition
`if confidence and ...` treats the float `0.0` as falsy). -/
theorem C4_counterexample :
    (0 : ℚ) ∈ Set.Icc (0 : ℚ) 1 ∧
    conf_pct 0 = "n/a" ∧
    build_emotion_instruction (some "happy") 0
      = "Current user emotion: happy (confidence n/a). Guidance: "
        ++ "User appears happy and engaged. Great time for learning!"
        ++ ". Adjust tone and strategy accordingly. Tips: "
        ++ "Ask about advanced topics, Suggest challenging problems, Encourage exploration"
        ++ "." := by
  have hpct : conf_pct 0 = "n/a" := by
    unfold conf_pct
    rw [if_neg]
    simp
  refine ⟨Set.mem_Icc.2 ⟨le_refl 0, zero_le_one⟩, hpct, ?_⟩
  rw [build_emotion_instruction_eq "happy" 0 (by decide), hpct]
  rfl

/-- C4 (amended): for a present (nonempty) emotion label, the compiler
looks the trimmed lowercased label up in the EmotionContext table with
the `"neutral"` entry as default, renders the confidence as a rounded
integer percentage exactly when it is nonzero and lies within [0,1]
(`"n/a"` otherwise, including at exactly 0), and composes the
instruction from the label, that rendering, the context description and
at most the first three suggestions; for "happy"/0.82 the output
contains "82%" and the happy context description. -/
theorem C4_emotion_instruction (e : String) (conf : ℚ) (he : e ≠ "") :
    build_emotion_instruction (some e) conf
      = "Current user emotion: " ++ pyKey e ++ " (confidence "
        ++ conf_pct conf ++ "). Guidance: "
        ++ ((EMOTION_CONTEXTS.lookup (pyKey e)).getD neutralInfo).context
        ++ ". Adjust tone and strategy accordingly. Tips: "
        ++ joinComma (((EMOTION_CONTEXTS.lookup (pyKey e)).getD neutralInfo).suggestions.take 3)
        ++ "."
    ∧ (conf ≠ 0 ∧ 0 ≤ conf ∧ conf ≤ 1 →
        conf_pct conf = toString (pyRound (conf * 100)) ++ "%")
    ∧ (¬(conf ≠ 0 ∧ 0 ≤ conf ∧ conf ≤ 1) → conf_pct conf = "n/a")
    ∧ (EMOTION_CONTEXTS.lookup (pyKey e) = none →
        (EMOTION_CONTEXTS.lookup (pyKey e)).getD neutralInfo = neutralInfo)
    ∧ ((((EMOTION_CONTEXTS.lookup (pyKey e)).getD neutralInfo).suggestions.take 3).length ≤ 3)
    ∧ (∀ c : ℚ, build_emotion_instruction (some "HAPPY") c
        = build_emotion_instruction (some "happy") c)
    ∧ (∃ pre post, build_emotion_instruction (some "happy") (82/100)
        = pre ++ "82%" ++ post)
    ∧ (∃ pre post, build_emotion_instruction (some "happy") (82/100)
        = pre ++ happyInfo.context ++ post) := by
  have h82 : conf_pct (82/100) = "82%" := by
    have hr : pyRound ((82 : ℚ)/100 * 100) = 82 := by
      norm_num [pyRound]
    unfold conf_pct
    rw [if_pos (by norm_num), hr]
    rfl
  have hlow : pyKey "HAPPY" = pyKey "happy" := by
    decide
  refine ⟨build_emotion_instruction_eq e conf he, ?_, ?_, ?_, ?_, ?_, ?_, ?_⟩
  · intro h
    unfold conf_pct
    rw [if_pos h]
  · intro h
    unfold conf_pct
    rw [if_neg h]
  · intro h
    rw [h]
    rfl
  · rw [List.length_take]
    exact min_le_left _ _
  · intro c
    rw [build_emotion_instruction_eq "HAPPY" c (by decide),
      build_emotion_instruction_eq "happy" c (by decide), hlow]
  · refine ⟨"Current user emotion: happy (confidence ",
      "). Guidance: User appears happy and engaged. Great time for learning!"
        ++ ". Adjust tone and strategy accordingly. Tips: "
        ++ "Ask about advanced topics, Suggest challenging problems, Encourage exploration"
        ++ ".", ?_⟩
    rw [build_emotion_instruction_eq "happy" (82/100) (by decide), h82]
    rfl
  · refine ⟨"Current user emotion: happy (confidence 82%). Guidance: ",
      ". Adjust tone and strategy accordingly. Tips: "
        ++ "Ask about advanced topics, Suggest challenging problems, Encourage exploration"
        ++ ".", ?_⟩
    rw [build_emotion_instruction_eq "happy" (82/100) (by decide), h82]
    rfl

theorem C4_witness :
    build_emotion_instruction (some "happy") (82/100)
      = "Current user emotion: " ++ pyKey "happy" ++ " (confidence "
        ++ conf_pct (82/100) ++ "). Guidance: "
        ++ ((EMOTION_CONTEXTS.lookup (pyKey "happy")).getD neutralInfo).context
        ++ ". Adjust tone and strategy accordingly. Tips: "
        ++ joinComma
            (((EMOTION_CONTEXTS.lookup (pyKey "happy")).getD neutralInfo).suggestions.take 3)
        ++ "." :=
  (C4_emotion_instruction "happy" (82/100) (by decide)).1

/-- Shared shape of the assembled chat message list. -/
theorem buildMessages_eq (st : GState)
    (clf : Option (String → Except String (String × ℚ))) (p : ChatPayload) :
    buildMessages st clf p
      = [Msg.mk "system" system_persona]
        ++ (if p.use_emotion then [emotionMsg st p] else [])
        ++ (if p.use_topic then [topicMsg st clf p] else [])
        ++ p.history.map normalizeHist ++ [Msg.mk "user" p.message] := by
  obtain ⟨msg, hist, ue, eo, eco, ut, tpo, tco⟩ := p
  cases ue <;> cases ut <;> simp [buildMessages]

/-- C5: the request to the remote API carries, in order, the base
persona system message, then (iff requested) the emotion instruction,
then (iff requested) the topic instruction — emotion always before
topic — then the request history, then the user message; with both
flags false only persona, history and user message are sent. -/
theorem C5_message_order (st : GState)
    (clf : Option (String → Except String (String × ℚ))) (p : ChatPayload) :
    buildMessages st clf p
      = [Msg.mk "system" system_persona]
        ++ (if p.use_emotion then [emotionMsg st p] else [])
        ++ (if p.use_topic then [topicMsg st clf p] else [])
        ++ p.history.map normalizeHist ++ [Msg.mk "user" p.message]
    ∧ (p.use_emotion = false → p.use_topic = false →
        buildMessages st clf p
          = Msg.mk "system" system_persona
              :: (p.history.map normalizeHist ++ [Msg.mk "user" p.message])) := by
  refine ⟨buildMessages_eq st clf p, ?_⟩
  intro h1 h2
  rw [buildMessages_eq, h1, h2]
  simp

theorem C5_witness :
    buildMessages st0 none ⟨"hello", [], false, none, none, false, none, none⟩
      = Msg.mk "system" system_persona
          :: (List.map normalizeHist [] ++ [Msg.mk "user" "hello"]) :=
  (C5_message_order st0 none
    ⟨"hello", [], false, none, none, false, none, none⟩).2 rfl rfl

/-- C6: `/api/classify_topic` with an unavailable classifier returns
label none, confidence 0, empty top list, model_loaded false; the state
is untouched and the result is a success, never an error. -/
theorem C6_classifier_unavailable (st : GState) (text : String) (k : ℤ) :
    classify_topic none st text k = (.ok ⟨none, 0, [], false⟩, st)
    ∧ ∃ r, (classify_topic none st text k).1 = .ok r :=
  ⟨rfl, ⟨_, rfl⟩⟩

/-- C7: for a processed image, `detections` is 0 exactly when the best
confidence does not strictly exceed the recognizer's threshold,
independently of the returned label; a missing detector yields 503 and
a processing failure yields 500. -/
theorem C7_recognize_emotion :
    (∀ (rec : Recognizer) (emotion : String) (conf : ℚ),
      rec.predictResult = .ok (emotion, conf) →
      ∃ resp, recognize_emotion (some rec) = .ok resp ∧
        resp.emotion = emotion ∧ resp.confidence = conf ∧
        resp.detections = (if rec.confidence_threshold < conf then 1 else 0) ∧
        (conf ≤ rec.confidence_threshold → resp.detections = 0) ∧
        (rec.confidence_threshold < conf → resp.detections = 1))
    ∧ recognize_emotion none = .error ⟨503, "Emotion recognition model not available"⟩
    ∧ (∀ (rec : Recognizer) (e : String), rec.predictResult = .error e →
        recognize_emotion (some rec)
          = .error ⟨500, "Emotion recognition failed: " ++ e⟩) := by
  refine ⟨?_, rfl, ?_⟩
  · intro rec emotion conf h
    have hre : recognize_emotion (some rec)
        = .ok ⟨"success", emotion, conf,
            if rec.confidence_threshold < conf then 1 else 0,
            "Detected emotion: " ++ emotion ++ " with " ++ fmt2 conf ++ " confidence"⟩ := by
      simp only [recognize_emotion]
      rw [h]
    refine ⟨_, hre, rfl, rfl, rfl, ?_, ?_⟩
    · intro hle
      show (if rec.confidence_threshold < conf then 1 else 0) = 0
      rw [if_neg (not_lt.2 hle)]
    · intro hlt
      show (if rec.confidence_threshold < conf then 1 else 0) = 1
      rw [if_pos hlt]
  · intro rec e h
    simp only [recognize_emotion]
    rw [h]

theorem C7_witness :
    ∃ resp, recognize_emotion (some recHappyLow) = .ok resp ∧
      resp.emotion = "happy" ∧ resp.confidence = 1/5 ∧
      resp.detections = (if recHappyLow.confidence_threshold < 1/5 then 1 else 0) ∧
      ((1/5 : ℚ) ≤ recHappyLow.confidence_threshold → resp.detections = 0) ∧
      (recHappyLow.confidence_threshold < 1/5 → resp.detections = 1) :=
  C7_recognize_emotion.1 recHappyLow "happy" (1/5) rfl

/-- C8: with the API-key environment variable absent, `/api/chat_openai`
produces the documented not-configured 500 error, uniformly in the
shared state, the classifier, the network oracle and the payload — so
no network call and no message assembly can be involved in the
outcome. -/
theorem C8_missing_key (st : GState)
    (clf : Option (String → Except String (String × ℚ)))
    (net : List Msg → Except String String) (p : ChatPayload) :
    chat_openai none st clf net p = .error not_configured_err :=
  rfl

/-- C9: every message forwarded to the remote API has role "user",
"assistant" or "system"; a history entry with a missing or invalid role
is forwarded with role "user", a missing content becomes ""; the whole
history is forwarded (never dropped, never an error). -/
theorem C9_history_roles (st : GState)
    (clf : Option (String → Except String (String × ℚ))) (p : ChatPayload) :
    (∀ m ∈ buildMessages st clf p,
      m.role = "user" ∨ m.role = "assistant" ∨ m.role = "system")
    ∧ (∀ e : HistEntry, e.role = none → (normalizeHist e).role = "user")
    ∧ (∀ (e : HistEntry) (r : String), e.role = some r → r ∉ allowedRoles →
        (normalizeHist e).role = "user")
    ∧ (∀ e : HistEntry, e.content = none → (normalizeHist e).content = "")
    ∧ (∃ pre, buildMessages st clf p
        = pre ++ p.history.map normalizeHist ++ [Msg.mk "user" p.message]) := by
  have hnorm : ∀ h : HistEntry,
      (normalizeHist h).role = "user" ∨ (normalizeHist h).role = "assistant" ∨
      (normalizeHist h).role = "system" := by
    intro h
    by_cases hr : h.role.getD "user" ∈ allowedRoles
    · have : (normalizeHist h).role = h.role.getD "user" := by
        simp [normalizeHist, hr]
      rw [this]
      simpa [allowedRoles] using hr
    · have : (normalizeHist h).role = "user" := by
        simp [normalizeHist, hr]
      rw [this]
      exact Or.inl rfl
  refine ⟨?_, ?_, ?_, ?_, ?_⟩
  · intro m hm
    rw [buildMessages_eq] at hm
    rcases List.mem_append.1 hm with hm1 | hm1
    · rcases List.mem_append.1 hm1 with hm2 | hm2
      · rcases List.mem_append.1 hm2 with hm3 | hm3
        · rcases List.mem_append.1 hm3 with hm4 | hm4
          · rw [List.mem_singleton.1 hm4]
            exact Or.inr (Or.inr rfl)
          · split at hm4
            · rw [List.mem_singleton.1 hm4]
              exact Or.inr (Or.inr rfl)
            · exact absurd hm4 (List.not_mem_nil m)
        · split at hm3
          · rw [List.mem_singleton.1 hm3]
            exact Or.inr (Or.inr rfl)
          · exact absurd hm3 (List.not_mem_nil m)
      · obtain ⟨h, -, rfl⟩ := List.mem_map.1 hm2
        exact hnorm h
    · rw [List.mem_singleton.1 hm1]
      exact Or.inl rfl
  · intro e he
    simp [normalizeHist, he, allowedRoles]
  · intro e r he hr
    simp [normalizeHist, he, hr]
  · intro e he
    simp [normalizeHist, he]
  · exact ⟨[Msg.mk "system" system_persona]
      ++ (if p.use_emotion then [emotionMsg st p] else [])
      ++ (if p.use_topic then [topicMsg st clf p] else []),
      by rw [buildMessages_eq]⟩

theorem C9_witness :
    (normalizeHist ⟨none, none⟩).role = "user" ∧
    (normalizeHist ⟨some "bot", some "x"⟩).role = "user" ∧
    (normalizeHist ⟨some "assistant", none⟩).content = "" := by
  have h := C9_history_roles st0 none
    ⟨"hi", [], false, none, none, false, none, none⟩
  exact ⟨h.2.1 ⟨none, none⟩ rfl,
    h.2.2.1 ⟨some "bot", some "x"⟩ "bot" rfl (by decide),
    h.2.2.2.1 ⟨some "assistant", none⟩ rfl⟩

/-- C10: with an available classifier, the shared topic slot is updated
only after both `predict` and `top_k` succeed; when either raises, the
endpoint returns a 500 error and the state is exactly the one before
the call. -/
theorem C10_state_update (c : TopicClf) (st : GState) (text : String) (k : ℤ) :
    (∀ e, c.predictR text = .error e →
      classify_topic (some c) st text k
        = (.error ⟨500, "Topic classify error: " ++ e⟩, st))
    ∧ (∀ (l : String) (conf : ℚ) (e : String), c.predictR text = .ok (l, conf) →
        c.topkR text (max 1 k) = .error e →
        classify_topic (some c) st text k
          = (.error ⟨500, "Topic classify error: " ++ e⟩, st))
    ∧ (∀ (l : String) (conf : ℚ) (top : List (String × ℚ)),
        c.predictR text = .ok (l, conf) →
        c.topkR text (max 1 k) = .ok top →
        classify_topic (some c) st text k
          = (.ok ⟨some l, conf, top, true⟩,
             { st with current_topic := some l, topic_confidence := conf })) := by
  refine ⟨?_, ?_, ?_⟩
  · intro e h
    simp only [classify_topic]
    rw [h]
  · intro l conf e h1 h2
    simp only [classify_topic]
    rw [h1, h2]
  · intro l conf top h1 h2
    simp only [classify_topic]
    rw [h1, h2]

theorem C10_witness :
    classify_topic (some clfFix) st0 "hi" 3
      = (.ok ⟨some "math", 9/10, [("math", 9/10)], true⟩,
         { st0 with current_topic := some "math", topic_confidence := 9/10 }) :=
  (C10_state_update clfFix st0 "hi" 3).2.2 "math" (9/10) [("math", 9/10)] rfl rfl

end Stemmy
